import Mathlib

/-!
Shallow embedding of the core of `src/QFS.cpp` (a concurrent recursive file
search): the pattern-spec parser (`parseSearchPatterns`, lines 89-171), the
pattern matcher (`matchesPatterns`, lines 314-396), the traversal engine
(`searchInDirectory` lines 401-441, `launchSearch` lines 446-463) and the
completion barrier of `main` (lines 672-676), together with theorems settling
the frozen claims about them.

Strings are modelled by Lean `String` (a wrapped `List Char`); `std::string`
comparison is modelled by an executable lexicographic order on the character
list.  The C++ regular-expression engine (`std::regex`) is an external
library; the functions of the code that use it are parameterised by an
arbitrary compile function (`String → Option RE`, `none` modelling
`std::regex_error` on construction) and a match function (`RE → String →
Bool`, modelling `std::regex_match`, i.e. whole-string match).  A small
executable instance (`miniCompile`/`rmatches`, a Brzozowski-derivative
matcher for a fragment of ECMAScript syntax) is used to evaluate concrete
inputs; on that fragment it agrees with `std::regex` with `icase`, and the
pattern `"("` fails to compile in both, exactly as an unmatched parenthesis
throws `std::regex_error` in ECMAScript mode.

The concurrent traversal is embedded by sequentialising each spawned unit at
its spawn point while keeping the exact counter discipline of the code: the
spawn branch increments `activeThreads` before the unit runs and decrements
it once after (recorded in an explicit trace of counter values), the inline
branch leaves the counter untouched.  The result multiset is independent of
scheduling (each file is examined exactly once), so counting and sorting
claims are faithfully decided by this model.  The completion-barrier claim,
which is irreducibly about interleavings, gets its own small labelled
transition system (`bstep`) modelling `main`'s condition-variable wait and
one worker's decrement-and-notify.
-/

namespace QFS

/-- Search modes of `enum class SearchMode` (src/QFS.cpp lines 35-39). -/
inductive SearchMode
  | OR
  | AND
  | SINGLE
  deriving DecidableEq, Repr

/-- Pattern types of `enum class PatternType` (src/QFS.cpp lines 41-44). -/
inductive PatternType
  | SIMPLE
  | REGEX
  deriving DecidableEq, Repr

/-- Whitespace set `" \t"` used by the parser's trimming (lines 94-95, 158-159). -/
def isWS (c : Char) : Bool := c == ' ' || c == '\t'

/-- Drops trailing characters satisfying `isWS` (model of
`erase(find_last_not_of(" \t") + 1)`). -/
def dropTrailWS (l : List Char) : List Char := (l.reverse.dropWhile isWS).reverse

/-- Trims leading then trailing spaces/tabs, as lines 94-95 and 158-159 do. -/
def trimWS (l : List Char) : List Char := dropTrailWS (l.dropWhile isWS)

/-- Occurrence test for a two-character delimiter, modelling
`std::string::find(delim) != npos` for the delimiters `"&&"` and `"||"`. -/
def containsSub (pat : List Char) : List Char → Bool
  | [] => pat.isEmpty
  | c :: rest => pat.isPrefixOf (c :: rest) || containsSub pat rest

/-- Split on a two-character delimiter, dropping empty tokens, exactly as
`splitString` (src/QFS.cpp lines 63-84) does: scan left to right, cut at each
non-overlapping occurrence of the delimiter, keep only non-empty tokens.
The accumulator holds the current token reversed. -/
def split2 (d1 d2 : Char) : List Char → List Char → List (List Char)
  | [], acc => if acc.isEmpty then [] else [acc.reverse]
  | [a], acc => ((a :: acc).reverse) :: []
  | a :: b :: rest, acc =>
    if a == d1 && b == d2 then
      if acc.isEmpty then split2 d1 d2 rest []
      else acc.reverse :: split2 d1 d2 rest []
    else split2 d1 d2 (b :: rest) (a :: acc)

/-- Operator detection and splitting applied to the (possibly
delimiter-stripped) body, shared verbatim by the regex branch (lines 107-127)
and the simple branch (lines 133-153): both `&&` and `||` present fails,
`&&` alone gives `AND`, `||` alone gives `OR`, neither gives `SINGLE` with
the body as the only pattern. -/
def detectSplit (body : List Char) : Option (SearchMode × List (List Char)) :=
  let hasAnd := containsSub ['&', '&'] body
  let hasOr := containsSub ['|', '|'] body
  if hasAnd && hasOr then none
  else if hasAnd then some (SearchMode.AND, split2 '&' '&' body [])
  else if hasOr then some (SearchMode.OR, split2 '|' '|' body [])
  else some (SearchMode.SINGLE, [body])

/-- First stage of `parseSearchPatterns` (lines 91-154): trim the input, fail
if empty, detect the `/.../` regex delimiters (length ≥ 2, first and last
character `'/'`), strip them, then detect the logical operator.  Returns the
raw (untrimmed) sub-pattern lists together with mode and type. -/
def parseStage1 (input : String) : Option (List (List Char) × SearchMode × PatternType) :=
  let t := trimWS input.data
  if t.isEmpty then none
  else if 2 ≤ t.length && t.head? == some '/' && t.getLast? == some '/' then
    (detectSplit (t.drop 1).dropLast).map fun ms => (ms.2, ms.1, PatternType.REGEX)
  else
    (detectSplit t).map fun ms => (ms.2, ms.1, PatternType.SIMPLE)

/-- Full `parseSearchPatterns` (src/QFS.cpp lines 89-171): after stage one,
trim each sub-pattern (lines 157-160), drop the empty ones (lines 163-164),
and fail if none remain (lines 166-168).  `none` models `return false`. -/
def parseSearchPatterns (input : String) : Option (List String × SearchMode × PatternType) :=
  (parseStage1 input).bind fun rmt =>
    let cleaned := (rmt.1.map trimWS).filter fun l => !l.isEmpty
    if cleaned.isEmpty then none
    else some (cleaned.map fun l => (⟨l⟩ : String), rmt.2.1, rmt.2.2)

/-- ASCII lowering of one character, modelling `::tolower` in the "C" locale
as used by `toLower` (src/QFS.cpp lines 305-309). -/
def asciiLower (c : Char) : Char :=
  if 'A' ≤ c && c ≤ 'Z' then Char.ofNat (c.toNat + 32) else c

/-- Lowercases a whole string, modelling `toLower` (src/QFS.cpp lines 305-309). -/
def toLowerStr (s : String) : String := ⟨s.data.map asciiLower⟩

/-- One case-insensitive substring test of the simple branch:
`lowerFilename.find(toLower(pattern)) != npos` (lines 325, 335, 344). -/
def simpleSub (lowerFilename p : String) : Bool :=
  containsSub (toLowerStr p).data lowerFilename.data

/-- OR loop of the simple branch (src/QFS.cpp lines 321-330): return true at
the first containing pattern, false when the list is exhausted. -/
def simpleOrLoop (lf : String) : List String → Bool
  | [] => false
  | p :: rest => if simpleSub lf p then true else simpleOrLoop lf rest

/-- AND loop of the simple branch (src/QFS.cpp lines 331-340): return false at
the first non-containing pattern, true when the list is exhausted. -/
def simpleAndLoop (lf : String) : List String → Bool
  | [] => true
  | p :: rest => if simpleSub lf p then simpleAndLoop lf rest else false

/-- OR loop of the regex branch (src/QFS.cpp lines 349-364).  A sub-pattern
whose compilation throws `std::regex_error` makes the whole call return
`false` at once (the `catch` block at lines 358-362 ends in `return false`),
so later sub-patterns are not examined. -/
def regexOrLoop {RE : Type} (compile : String → Option RE) (rmatch : RE → String → Bool)
    (filename : String) : List String → Bool
  | [] => false
  | p :: rest =>
    match compile p with
    | none => false
    | some re => if rmatch re filename then true else regexOrLoop compile rmatch filename rest

/-- AND loop of the regex branch (src/QFS.cpp lines 366-381): a failed
compilation also makes the call return `false` (here that coincides with
treating the sub-pattern as non-matching). -/
def regexAndLoop {RE : Type} (compile : String → Option RE) (rmatch : RE → String → Bool)
    (filename : String) : List String → Bool
  | [] => true
  | p :: rest =>
    match compile p with
    | none => false
    | some re => if rmatch re filename then regexAndLoop compile rmatch filename rest else false

/-- Full `matchesPatterns` (src/QFS.cpp lines 314-396), parameterised by the
regex engine.  `SINGLE` mode reads `patterns[0]` with no emptiness guard
(lines 343 and 386); indexing an empty `std::vector` is undefined behaviour,
modelled by `none` via `List.head?`.  All other paths are total. -/
def matchesPatterns {RE : Type} (compile : String → Option RE) (rmatch : RE → String → Bool)
    (filename : String) (patterns : List String) (mode : SearchMode)
    (ptype : PatternType) : Option Bool :=
  match ptype, mode with
  | PatternType.SIMPLE, SearchMode.OR =>
    some (simpleOrLoop (toLowerStr filename) patterns)
  | PatternType.SIMPLE, SearchMode.AND =>
    some (simpleAndLoop (toLowerStr filename) patterns)
  | PatternType.SIMPLE, SearchMode.SINGLE =>
    patterns.head?.map fun p => simpleSub (toLowerStr filename) p
  | PatternType.REGEX, SearchMode.OR =>
    some (regexOrLoop compile rmatch filename patterns)
  | PatternType.REGEX, SearchMode.AND =>
    some (regexAndLoop compile rmatch filename patterns)
  | PatternType.REGEX, SearchMode.SINGLE =>
    patterns.head?.map fun p =>
      match compile p with
      | none => false
      | some re => rmatch re filename

/-- Regular-expression abstract syntax of the executable engine instance
used to evaluate concrete inputs (a fragment of ECMAScript syntax: literal
characters, `\`-escapes, `.`, and the `*` quantifier). -/
inductive MiniRE
  | void
  | eps
  | chr (c : Char)
  | dot
  | alt (a b : MiniRE)
  | seq (a b : MiniRE)
  | star (a : MiniRE)
  deriving DecidableEq, Repr

/-- Nullability (acceptance of the empty string) of a `MiniRE`. -/
def nullable : MiniRE → Bool
  | MiniRE.void => false
  | MiniRE.eps => true
  | MiniRE.chr _ => false
  | MiniRE.dot => false
  | MiniRE.alt a b => nullable a || nullable b
  | MiniRE.seq a b => nullable a && nullable b
  | MiniRE.star _ => true

/-- Brzozowski derivative of a `MiniRE` with respect to one character. -/
def deriv (c : Char) : MiniRE → MiniRE
  | MiniRE.void => MiniRE.void
  | MiniRE.eps => MiniRE.void
  | MiniRE.chr d => if d == c then MiniRE.eps else MiniRE.void
  | MiniRE.dot => MiniRE.eps
  | MiniRE.alt a b => MiniRE.alt (deriv c a) (deriv c b)
  | MiniRE.seq a b =>
    if nullable a then MiniRE.alt (MiniRE.seq (deriv c a) b) (deriv c b)
    else MiniRE.seq (deriv c a) b
  | MiniRE.star a => MiniRE.seq (deriv c a) (MiniRE.star a)

/-- Whole-string match (the semantics of `std::regex_match`: the entire
filename must match, not merely contain a match).  Case-insensitivity
(`std::regex::icase`) is realised by lowering the input here and the pattern
at compilation. -/
def rmatches (r : MiniRE) (s : String) : Bool :=
  nullable ((s.data.map asciiLower).foldl (fun a c => deriv c a) r)

/-- Characters that are ECMAScript metacharacters outside the supported
fragment: a bare occurrence is a syntax error (`none`) in this engine, as
several of them (for example an unmatched `(`) are in `std::regex`. -/
def isMeta (c : Char) : Bool :=
  c == '*' || c == '+' || c == '?' || c == '(' || c == ')' || c == '[' || c == ']' ||
  c == '{' || c == '}' || c == '|' || c == '^' || c == '$'

/-- Compilation of the supported fragment: a sequence of atoms (escaped
character, `.`, or a plain character), each optionally starred.  A quantifier
with no operand or an unsupported metacharacter fails, as `std::regex`
construction throws `std::regex_error` on malformed ECMAScript patterns. -/
def compileList : List Char → Option MiniRE
  | [] => some MiniRE.eps
  | '\\' :: [] => none
  | '\\' :: c :: '*' :: rest =>
    (compileList rest).map (MiniRE.seq (MiniRE.star (MiniRE.chr (asciiLower c))))
  | '\\' :: c :: rest =>
    (compileList rest).map (MiniRE.seq (MiniRE.chr (asciiLower c)))
  | '.' :: '*' :: rest => (compileList rest).map (MiniRE.seq (MiniRE.star MiniRE.dot))
  | '.' :: rest => (compileList rest).map (MiniRE.seq MiniRE.dot)
  | c :: '*' :: rest =>
    if isMeta c then none
    else (compileList rest).map (MiniRE.seq (MiniRE.star (MiniRE.chr (asciiLower c))))
  | c :: rest =>
    if isMeta c then none
    else (compileList rest).map (MiniRE.seq (MiniRE.chr (asciiLower c)))

/-- Compile entry point of the executable engine instance. -/
def miniCompile (s : String) : Option MiniRE := compileList s.data

/-- Reference semantics of one sub-pattern, written from the spec's words
(spec §4.2): `Literal` is case-insensitive substring containment; `Regex` is
a case-insensitive full-string match of a well-formed pattern, a malformed
pattern being non-matching. -/
def specSub {RE : Type} (compile : String → Option RE) (rmatch : RE → String → Bool)
    (filename p : String) (ptype : PatternType) : Prop :=
  match ptype with
  | PatternType.SIMPLE => (toLowerStr p).data <:+: (toLowerStr filename).data
  | PatternType.REGEX => ∃ re, compile p = some re ∧ rmatch re filename = true

/-- Reference matcher written from the spec's words (spec §4.2): `SINGLE` is
the result of the one (first) sub-pattern, `AND` requires every sub-pattern
to match, `OR` requires some sub-pattern to match. -/
def specMatches {RE : Type} (compile : String → Option RE) (rmatch : RE → String → Bool)
    (filename : String) (patterns : List String) (mode : SearchMode)
    (ptype : PatternType) : Prop :=
  match mode with
  | SearchMode.OR => ∃ p ∈ patterns, specSub compile rmatch filename p ptype
  | SearchMode.AND => ∀ p ∈ patterns, specSub compile rmatch filename p ptype
  | SearchMode.SINGLE => ∃ p, patterns.head? = some p ∧ specSub compile rmatch filename p ptype

/-- A node of the modelled filesystem: a regular file, a readable directory
with its entries in enumeration order, or an inaccessible entry (any status
query on it throws, so the `catch` at src/QFS.cpp lines 433-435 skips it;
an unreadable directory is likewise skipped whole via
`skip_permission_denied` and the outer `catch` at lines 438-440). -/
inductive FSEntry
  | file (name : String)
  | dir (name : String) (entries : List FSEntry)
  | denied (name : String)

/-- One recorded match, the logical view of the formatted string
`"Found " + filename + " at: " + absolutePath` built at line 418. -/
structure SearchResult where
  fileName : String
  absolutePath : String
  deriving DecidableEq, Repr

/-- The formatted representation actually stored in `searchResults`
(src/QFS.cpp line 418). -/
def formatResult (r : SearchResult) : String :=
  "Found " ++ r.fileName ++ " at: " ++ r.absolutePath

/-- Shared mutable state of one search: the `activeThreads` counter, the
`searchResults` vector, and a trace recording the counter value after every
increment and decrement (so that "`0 ≤ active` at all times" is statable). -/
structure SearchState where
  active : Int
  results : List SearchResult
  trace : List Int
  deriving DecidableEq, Repr

/-- Initial state of a search: no active workers, no results. -/
def initState : SearchState := ⟨0, [], []⟩

/-- Absolute path of an entry of a directory, modelling
`fs::absolute(entry.path())` for an absolute directory path. -/
def childPath (p n : String) : String := p ++ "/" ++ n

/-- Appends one match to the shared result vector (src/QFS.cpp lines 421-424). -/
def recordMatch (p n : String) (s : SearchState) : SearchState :=
  ⟨s.active, s.results ++ [⟨n, childPath p n⟩], s.trace⟩

/-- The `activeThreads++` of the spawn branch (line 456), recording the new
counter value. -/
def incr (s : SearchState) : SearchState :=
  ⟨s.active + 1, s.results, s.trace ++ [s.active + 1]⟩

/-- The `activeThreads--; threadsCV.notify_one()` a spawned unit performs on
completion (lines 460-461), recording the new counter value. -/
def decrNotify (s : SearchState) : SearchState :=
  ⟨s.active - 1, s.results, s.trace ++ [s.active - 1]⟩

/-- The entry loop of `searchInDirectory` (src/QFS.cpp lines 408-436) over a
directory's entries, with `launchSearch`'s spawn decision (lines 448-462)
inlined at the subdirectory case: when `activeThreads ≥ maxThreads` the
recursive search runs inline and the counter is untouched, otherwise the
counter is incremented, the spawned unit runs, and the unit decrements the
counter and notifies on completion.  `mp` is the match decision
`matchesPatterns(entryFilename, …)` of line 416; a matching regular file is
recorded (lines 414-430); an inaccessible entry is skipped (lines 433-435). -/
def searchDirEntries (mp : String → Bool) (maxT : Int) :
    String → List FSEntry → SearchState → SearchState
  | _, [], s => s
  | p, FSEntry.file n :: rest, s =>
    searchDirEntries mp maxT p rest (if mp n then recordMatch p n s else s)
  | p, FSEntry.dir n sub :: rest, s =>
    searchDirEntries mp maxT p rest
      (if maxT ≤ s.active then
        searchDirEntries mp maxT (childPath p n) sub s
      else
        decrNotify (searchDirEntries mp maxT (childPath p n) sub (incr s)))
  | p, FSEntry.denied _ :: rest, s => searchDirEntries mp maxT p rest s
  termination_by _ es _ => sizeOf es

/-- The spawn decision `launchSearch` (src/QFS.cpp lines 446-463) as a
function of the target directory's entries: inline call when
`activeThreads ≥ maxThreads`, otherwise increment, run the unit, and have it
decrement and notify once on completion. -/
def launchSearch (mp : String → Bool) (maxT : Int) (dirPath : String)
    (entries : List FSEntry) (s : SearchState) : SearchState :=
  if maxT ≤ s.active then searchDirEntries mp maxT dirPath entries s
  else decrNotify (searchDirEntries mp maxT dirPath entries (incr s))

/-- Entry guard of `searchInDirectory` (src/QFS.cpp lines 403-406 and the
outer `catch` at 438-440): a path that does not exist (`none`), is not a
directory, or whose status query throws, returns at once with the state
unchanged; a readable directory is enumerated. -/
def searchInDirectory (mp : String → Bool) (maxT : Int) (dirPath : String)
    (target : Option FSEntry) (s : SearchState) : SearchState :=
  match target with
  | some (FSEntry.dir _ es) => searchDirEntries mp maxT dirPath es s
  | _ => s

/-- Reference list of the matches of an entry list in traversal order:
matching files of a directory interleaved with the matches of its
subdirectories, inaccessible entries contributing nothing. -/
def collectMatches (mp : String → Bool) : String → List FSEntry → List SearchResult
  | _, [] => []
  | p, FSEntry.file n :: rest =>
    (if mp n then [⟨n, childPath p n⟩] else []) ++ collectMatches mp p rest
  | p, FSEntry.dir n sub :: rest =>
    collectMatches mp (childPath p n) sub ++ collectMatches mp p rest
  | p, FSEntry.denied _ :: rest => collectMatches mp p rest
  termination_by _ es => sizeOf es

/-- Number of regular files of the reachable (non-denied) tree whose name
satisfies the match decision. -/
def countMatches (mp : String → Bool) : List FSEntry → Nat
  | [] => 0
  | FSEntry.file n :: rest => (if mp n then 1 else 0) + countMatches mp rest
  | FSEntry.dir _ sub :: rest => countMatches mp sub + countMatches mp rest
  | FSEntry.denied _ :: rest => countMatches mp rest
  termination_by es => sizeOf es

/-- Removes inaccessible entries (and nothing else) from a tree. -/
def pruneEntries : List FSEntry → List FSEntry
  | [] => []
  | FSEntry.file n :: rest => FSEntry.file n :: pruneEntries rest
  | FSEntry.dir n sub :: rest => FSEntry.dir n (pruneEntries sub) :: pruneEntries rest
  | FSEntry.denied _ :: rest => pruneEntries rest
  termination_by es => sizeOf es

/-- Executable lexicographic order on character lists, the model of
`std::string::operator<=` (byte-wise lexicographic comparison) used by
`std::sort(searchResults.begin(), searchResults.end())` at line 687. -/
def listLE : List Char → List Char → Bool
  | [], _ => true
  | _ :: _, [] => false
  | a :: as, b :: bs =>
    if a.toNat < b.toNat then true
    else if b.toNat < a.toNat then false
    else listLE as bs

/-- Lexicographic order on strings (model of `std::string` comparison). -/
def strLE (a b : String) : Bool := listLE a.data b.data

/-- The final sort of `main` (src/QFS.cpp line 687): the stored strings are
the formatted result lines, so the sort key is `formatResult`. -/
def sortResults (rs : List SearchResult) : List SearchResult :=
  List.insertionSort (fun a b => strLE (formatResult a) (formatResult b) = true) rs

/-- The whole core pipeline of `main` (lines 670-687) for a validated root
directory: run the traversal from the root with a fresh state, wait for
completion (the model is sequential, so completion is function return), and
sort the result vector. -/
def runQFS (mp : String → Bool) (maxT : Int) (rootPath : String)
    (root : List FSEntry) : List SearchResult :=
  sortResults (searchDirEntries mp maxT rootPath root initState).results

/-- The pipeline with the match decision instantiated by `matchesPatterns`
exactly as line 416 does (`== some true`: for the pattern lists produced by a
successful parse the matcher is total, see the theorem for claim C10). -/
def qfsSearch {RE : Type} (compile : String → Option RE) (rmatch : RE → String → Bool)
    (patterns : List String) (mode : SearchMode) (ptype : PatternType)
    (maxT : Int) (rootPath : String) (root : List FSEntry) : List SearchResult :=
  runQFS (fun n => matchesPatterns compile rmatch n patterns mode ptype == some true)
    maxT rootPath root

/-- The invariant "`0 ≤ active` at all times": the current counter value and
every recorded intermediate value are non-negative. -/
def traceOK (s : SearchState) : Prop := 0 ≤ s.active ∧ ∀ v ∈ s.trace, 0 ≤ v

/-- A concrete two-directory tree on which sorting the formatted result
lines differs from sorting by absolute path: the file with the smaller name
lives in the directory with the larger name. -/
def cexTree : List FSEntry :=
  [FSEntry.dir "y" [FSEntry.file "a.txt"], FSEntry.dir "x" [FSEntry.file "b.txt"]]

/-- A concrete tree with one inaccessible subtree and one inaccessible file
next to readable matches, used to evaluate the skip policy. -/
def deniedTree : List FSEntry :=
  [FSEntry.file "a.txt", FSEntry.denied "d2",
   FSEntry.dir "d1" [FSEntry.denied "hidden.txt", FSEntry.file "b.txt"],
   FSEntry.file "no.md"]

/-- Program counter of the root (`main`) in the completion-barrier model:
about to acquire `threadsMutex` (line 674); holding it and about to evaluate
the predicate `activeThreads == 0` (line 675); predicate seen false, about to
block inside `threadsCV.wait`; blocked; or returned from the wait. -/
inductive MainPC
  | acq
  | check
  | toBlock
  | blocked
  | done
  deriving DecidableEq, Repr

/-- Program counter of the last spawned worker: about to execute
`activeThreads--` (line 460, an atomic operation not guarded by
`threadsMutex`); about to execute `threadsCV.notify_one()` (line 461);
finished. -/
inductive WorkerPC
  | dec
  | notify
  | fin
  deriving DecidableEq, Repr

/-- Joint state of the completion-barrier model: the `activeThreads` value,
whether `threadsMutex` is held by the root, and both program counters. -/
structure BState where
  active : Int
  lockHeld : Bool
  m : MainPC
  w : WorkerPC
  deriving DecidableEq, Repr

/-- Labels of the interleaved steps of the barrier model. -/
inductive BAct
  | mAcq
  | mCheck
  | mBlock
  | wDec
  | wNotify
  deriving DecidableEq, Repr

/-- One interleaved step of the barrier model, `none` when the action is not
enabled.  `mAcq` acquires the free mutex; `mCheck` evaluates
`activeThreads == 0` under the mutex (line 675), returning on success;
`mBlock` atomically releases the mutex and blocks inside `wait`; `wDec` is
the worker's unguarded atomic decrement (line 460); `wNotify` is
`notify_one` (line 461), which wakes the root only if it is already blocked
— a notification arriving before the root blocks is lost. -/
def bstep (s : BState) (a : BAct) : Option BState :=
  match a, s.m, s.w with
  | BAct.mAcq, MainPC.acq, w =>
    if s.lockHeld then none else some ⟨s.active, true, MainPC.check, w⟩
  | BAct.mCheck, MainPC.check, w =>
    if s.active = 0 then some ⟨s.active, false, MainPC.done, w⟩
    else some ⟨s.active, true, MainPC.toBlock, w⟩
  | BAct.mBlock, MainPC.toBlock, w => some ⟨s.active, false, MainPC.blocked, w⟩
  | BAct.wDec, m, WorkerPC.dec => some ⟨s.active - 1, s.lockHeld, m, WorkerPC.notify⟩
  | BAct.wNotify, m, WorkerPC.notify =>
    some ⟨s.active, s.lockHeld,
      (if m = MainPC.blocked then MainPC.acq else m), WorkerPC.fin⟩
  | _, _, _ => none

/-- Runs a schedule (list of actions) from a state, failing if any action is
not enabled. -/
def brun (s : BState) : List BAct → Option BState
  | [] => some s
  | a :: rest => (bstep s a).bind fun s2 => brun s2 rest

/-- Barrier state at the point `main` reaches line 674 of a run over a root
with one subdirectory and `maxThreads ≥ 1`: one spawned worker still running
(`activeThreads = 1`), the mutex free, the root about to acquire it. -/
def bInit : BState := ⟨1, false, MainPC.acq, WorkerPC.dec⟩

/-- The interleaving exhibiting the lost wakeup: the root acquires the mutex
and sees `activeThreads = 1`; the worker then decrements to `0` and notifies
while the root has not yet blocked (legal, because the decrement and the
notification are not guarded by `threadsMutex`); the notification is lost;
the root blocks forever. -/
def lostWakeupSched : List BAct :=
  [BAct.mAcq, BAct.mCheck, BAct.wDec, BAct.wNotify, BAct.mBlock]

/-- A character surviving at the head of a `dropWhile isWS` is not whitespace. -/
theorem head_dropWhileWS : ∀ (l : List Char) (c : Char),
    (List.dropWhile isWS l).head? = some c → isWS c = false := by
  intro l
  induction l with
  | nil => intro c h; simp [List.dropWhile] at h
  | cons a t ih =>
    intro c h
    by_cases ha : isWS a
    · rw [List.dropWhile_cons_of_pos ha] at h
      exact ih c h
    · rw [List.dropWhile_cons_of_neg ha] at h
      simp only [List.head?_cons, Option.some.injEq] at h
      subst h
      simpa using ha

/-- Dropping trailing whitespace yields a prefix of the original list. -/
theorem dropTrailWS_prefix (l : List Char) : dropTrailWS l <+: l := by
  obtain ⟨t, ht⟩ := List.dropWhile_suffix (l := l.reverse) isWS
  refine ⟨t.reverse, ?_⟩
  have := congrArg List.reverse ht
  simpa [List.reverse_append] using this

/-- The first character of a trimmed list is not whitespace. -/
theorem trimWS_head (l : List Char) (c : Char) (h : (trimWS l).head? = some c) :
    isWS c = false := by
  obtain ⟨r, hr⟩ := dropTrailWS_prefix (l.dropWhile isWS)
  apply head_dropWhileWS l c
  cases htl : trimWS l with
  | nil => rw [htl] at h; cases h
  | cons x xs =>
    rw [htl] at h
    simp only [List.head?_cons, Option.some.injEq] at h
    subst h
    unfold trimWS at htl
    rw [htl] at hr
    rw [← hr]
    simp

/-- The last character of a trimmed list is not whitespace. -/
theorem trimWS_getLast (l : List Char) (c : Char) (h : (trimWS l).getLast? = some c) :
    isWS c = false := by
  unfold trimWS dropTrailWS at h
  rw [List.getLast?_reverse] at h
  exact head_dropWhileWS _ c h

/-- In `SINGLE` mode `detectSplit` returns exactly the whole body as the one
sub-pattern. -/
theorem detectSplit_single (body : List Char) (ps : List (List Char))
    (h : detectSplit body = some (SearchMode.SINGLE, ps)) : ps = [body] := by
  simp only [detectSplit] at h
  split_ifs at h <;> simp_all

/-- The mode and raw sub-pattern list of a successful first parsing stage
come from `detectSplit` applied to some body. -/
theorem parseStage1_detect (input : String) (raw : List (List Char)) (m : SearchMode)
    (t : PatternType) (h : parseStage1 input = some (raw, m, t)) :
    ∃ body, detectSplit body = some (m, raw) := by
  simp only [parseStage1] at h
  split at h
  · simp at h
  · split at h
    · obtain ⟨ms, hd, hh⟩ := Option.map_eq_some'.mp h
      obtain ⟨m1, r1⟩ := ms
      simp only [Prod.mk.injEq] at hh
      exact ⟨_, by rw [hd, hh.1, hh.2.1]⟩
    · obtain ⟨ms, hd, hh⟩ := Option.map_eq_some'.mp h
      obtain ⟨m1, r1⟩ := ms
      simp only [Prod.mk.injEq] at hh
      exact ⟨_, by rw [hd, hh.1, hh.2.1]⟩

/-- Structure of every successful parse: the final pattern list is the
cleaned (trimmed, non-empty) sub-pattern list of the first stage, and that
cleaned list is non-empty. -/
theorem parse_success_struct (input : String) (ps : List String) (m : SearchMode)
    (t : PatternType) (h : parseSearchPatterns input = some (ps, m, t)) :
    ∃ raw, parseStage1 input = some (raw, m, t) ∧
      ps = ((raw.map trimWS).filter fun l => !l.isEmpty).map (fun l => (⟨l⟩ : String)) ∧
      ((raw.map trimWS).filter fun l => !l.isEmpty) ≠ [] := by
  unfold parseSearchPatterns at h
  cases hs : parseStage1 input with
  | none => rw [hs] at h; cases h
  | some rmt =>
    rw [hs] at h
    simp only [Option.some_bind] at h
    split_ifs at h with hc
    cases h
    exact ⟨rmt.1, rfl, rfl, by simpa using hc⟩

/-- The executable occurrence test agrees with the mathematical substring
(contiguous sublist) relation. -/
theorem containsSub_iff (pat : List Char) : ∀ hay : List Char,
    containsSub pat hay = true ↔ pat <:+: hay := by
  intro hay
  induction hay with
  | nil => simp [containsSub, List.isEmpty_iff, List.infix_nil]
  | cons c rest ih =>
    simp [containsSub, List.infix_cons_iff, List.isPrefixOf_iff_prefix, ih]

/-- The simple OR loop returns true exactly when some sub-pattern is
contained. -/
theorem simpleOrLoop_iff (lf : String) : ∀ ps : List String,
    (simpleOrLoop lf ps = true ↔ ∃ p ∈ ps, simpleSub lf p = true) := by
  intro ps
  induction ps with
  | nil => simp [simpleOrLoop]
  | cons p rest ih =>
    by_cases hp : simpleSub lf p = true
    · simp [simpleOrLoop, hp]
    · simp [simpleOrLoop, hp, ih]

/-- The simple AND loop returns true exactly when every sub-pattern is
contained. -/
theorem simpleAndLoop_iff (lf : String) : ∀ ps : List String,
    (simpleAndLoop lf ps = true ↔ ∀ p ∈ ps, simpleSub lf p = true) := by
  intro ps
  induction ps with
  | nil => simp [simpleAndLoop]
  | cons p rest ih =>
    by_cases hp : simpleSub lf p = true
    · simp [simpleAndLoop, hp, ih]
    · simp [simpleAndLoop, hp]

/-- When every sub-pattern compiles, the regex OR loop returns true exactly
when some sub-pattern fully matches. -/
theorem regexOrLoop_iff {RE : Type} (compile : String → Option RE)
    (rmatch : RE → String → Bool) (fn : String) : ∀ ps : List String,
    (∀ p ∈ ps, (compile p).isSome = true) →
    (regexOrLoop compile rmatch fn ps = true ↔
      ∃ p ∈ ps, ∃ re, compile p = some re ∧ rmatch re fn = true) := by
  intro ps
  induction ps with
  | nil => intro _; simp [regexOrLoop]
  | cons p rest ih =>
    intro hwf
    obtain ⟨re, hre⟩ := Option.isSome_iff_exists.mp (hwf p (by simp))
    have ihr := ih fun q hq => hwf q (by simp [hq])
    by_cases hm : rmatch re fn = true
    · have hstep : regexOrLoop compile rmatch fn (p :: rest) = true := by
        simp [regexOrLoop, hre, hm]
      rw [hstep]
      simp only [true_iff]
      exact ⟨p, by simp, re, hre, hm⟩
    · have hstep : regexOrLoop compile rmatch fn (p :: rest) =
          regexOrLoop compile rmatch fn rest := by
        simp [regexOrLoop, hre, hm]
      rw [hstep, ihr]
      constructor
      · rintro ⟨q, hq, re2, hre2, hm2⟩
        exact ⟨q, by simp [hq], re2, hre2, hm2⟩
      · rintro ⟨q, hq, re2, hre2, hm2⟩
        rcases List.mem_cons.mp hq with rfl | hq2
        · rw [hre] at hre2
          cases hre2
          exact absurd hm2 hm
        · exact ⟨q, hq2, re2, hre2, hm2⟩

/-- When every sub-pattern compiles, the regex AND loop returns true exactly
when every sub-pattern fully matches. -/
theorem regexAndLoop_iff {RE : Type} (compile : String → Option RE)
    (rmatch : RE → String → Bool) (fn : String) : ∀ ps : List String,
    (∀ p ∈ ps, (compile p).isSome = true) →
    (regexAndLoop compile rmatch fn ps = true ↔
      ∀ p ∈ ps, ∃ re, compile p = some re ∧ rmatch re fn = true) := by
  intro ps
  induction ps with
  | nil => intro _; simp [regexAndLoop]
  | cons p rest ih =>
    intro hwf
    obtain ⟨re, hre⟩ := Option.isSome_iff_exists.mp (hwf p (by simp))
    have ihr := ih fun q hq => hwf q (by simp [hq])
    by_cases hm : rmatch re fn = true
    · have hstep : regexAndLoop compile rmatch fn (p :: rest) =
          regexAndLoop compile rmatch fn rest := by
        simp [regexAndLoop, hre, hm]
      rw [hstep, ihr]
      constructor
      · intro hall q hq
        rcases List.mem_cons.mp hq with rfl | hq2
        · exact ⟨re, hre, hm⟩
        · exact hall q hq2
      · intro hall q hq
        exact hall q (by simp [hq])
    · have hstep : regexAndLoop compile rmatch fn (p :: rest) = false := by
        simp [regexAndLoop, hre, hm]
      rw [hstep]
      simp only [Bool.false_eq_true, false_iff]
      intro hall
      obtain ⟨re2, hre2, hm2⟩ := hall p (by simp)
      rw [hre] at hre2
      cases hre2
      exact hm hm2

/-- In the regex OR loop, a malformed sub-pattern reached after well-formed
non-matching ones makes the whole loop return false at once. -/
theorem regexOrLoop_abort {RE : Type} (compile : String → Option RE)
    (rmatch : RE → String → Bool) (fn bad : String) (post : List String)
    (hbad : compile bad = none) : ∀ pre : List String,
    (∀ p ∈ pre, ∃ re, compile p = some re ∧ rmatch re fn = false) →
    regexOrLoop compile rmatch fn (pre ++ bad :: post) = false := by
  intro pre
  induction pre with
  | nil => intro _; simp [regexOrLoop, hbad]
  | cons p rest ih =>
    intro hpre
    obtain ⟨re, hre, hm⟩ := hpre p (by simp)
    have ihr := ih fun q hq => hpre q (by simp [hq])
    simp only [List.cons_append, regexOrLoop, hre, hm]
    simpa using ihr

/-- Claim C5: the parser satisfies the spec's concrete vectors: `"a&&b"`
parses to mode `AND` with patterns `["a","b"]`; `"/a.*\.txt/"` parses to
pattern type `Regex`, mode `SINGLE` and the single pattern `a.*\.txt` with
the delimiters stripped; `"a&&b||c"` fails to parse, both `&&` and `||`
occurring in it. -/
theorem claimC5_parser_vectors :
    parseSearchPatterns "a&&b" = some (["a", "b"], SearchMode.AND, PatternType.SIMPLE) ∧
    parseSearchPatterns "/a.*\\.txt/" =
      some (["a.*\\.txt"], SearchMode.SINGLE, PatternType.REGEX) ∧
    containsSub ['&', '&'] "a&&b||c".data = true ∧
    containsSub ['|', '|'] "a&&b||c".data = true ∧
    parseSearchPatterns "a&&b||c" = none := by
  decide

/-- Claim C6: whenever `parseSearchPatterns` succeeds the produced pattern
list is non-empty, every produced sub-pattern is non-empty with no leading
or trailing space/tab, and `SINGLE` mode carries exactly one element; an
input that trims to nothing, or whose sub-patterns all trim to nothing,
fails to parse. -/
theorem claimC6_parse_invariants (input : String) :
    (trimWS input.data = [] → parseSearchPatterns input = none) ∧
    (∀ raw m t, parseStage1 input = some (raw, m, t) →
      (raw.map trimWS).filter (fun l => !l.isEmpty) = [] →
      parseSearchPatterns input = none) ∧
    (∀ ps m t, parseSearchPatterns input = some (ps, m, t) →
      ps ≠ [] ∧ (m = SearchMode.SINGLE → ps.length = 1) ∧
      ∀ p ∈ ps, p ≠ "" ∧
        (∀ c, p.data.head? = some c → isWS c = false) ∧
        (∀ c, p.data.getLast? = some c → isWS c = false)) := by
  refine ⟨?_, ?_, ?_⟩
  · intro ht
    simp [parseSearchPatterns, parseStage1, ht]
  · intro raw m t hst hcl
    simp only [parseSearchPatterns, hst, Option.some_bind]
    rw [if_pos (by simp [hcl])]
  · intro ps m t h
    obtain ⟨raw, hst, hps, hne⟩ := parse_success_struct input ps m t h
    refine ⟨?_, ?_, ?_⟩
    · rw [hps]
      simpa using hne
    · intro hm
      subst hm
      obtain ⟨body, hd⟩ := parseStage1_detect input raw SearchMode.SINGLE t hst
      have hraw := detectSplit_single body raw hd
      subst hraw
      rw [hps]
      by_cases hb : (trimWS body).isEmpty = true
      · exact absurd (by simp [hb]) hne
      · simp [List.filter, hb]
    · intro p hp
      rw [hps] at hp
      simp only [List.mem_map, List.mem_filter] at hp
      obtain ⟨l, ⟨⟨orig, horig, hlo⟩, hlne⟩, hpl⟩ := hp
      subst hlo
      subst hpl
      refine ⟨?_, ?_, ?_⟩
      · intro h0
        have hd0 : trimWS orig = [] := congrArg String.data h0
        rw [hd0] at hlne
        simp at hlne
      · intro c hc
        exact trimWS_head orig c hc
      · intro c hc
        exact trimWS_getLast orig c hc

/-- Concrete instance of the C6 invariants at the input `" a && b "`. -/
theorem claimC6_witness :
    parseSearchPatterns " a && b " =
      some (["a", "b"], SearchMode.AND, PatternType.SIMPLE) ∧
    ((["a", "b"] : List String) ≠ [] ∧
      (SearchMode.AND = SearchMode.SINGLE → (["a", "b"] : List String).length = 1) ∧
      ∀ p ∈ (["a", "b"] : List String), p ≠ "" ∧
        (∀ c, p.data.head? = some c → isWS c = false) ∧
        (∀ c, p.data.getLast? = some c → isWS c = false)) :=
  ⟨by decide, (claimC6_parse_invariants " a && b ").2.2 ["a", "b"]
      SearchMode.AND PatternType.SIMPLE (by decide)⟩

/-- Claim C10: `matchesPatterns` in `SINGLE` mode is well-defined exactly
when the pattern list is non-empty (the unguarded `patterns[0]` read, in
both the simple and the regex branch), every successful parse establishes
that precondition, and on an empty list `AND` returns true vacuously while
`OR` returns false. -/
theorem claimC10_single_unguarded {RE : Type} (compile : String → Option RE)
    (rmatch : RE → String → Bool) :
    (∀ (fn : String) (pt : PatternType) (ps : List String),
      (matchesPatterns compile rmatch fn ps SearchMode.SINGLE pt).isSome = true ↔
        ps ≠ []) ∧
    (∀ (fn : String) (pt : PatternType),
      matchesPatterns compile rmatch fn [] SearchMode.AND pt = some true) ∧
    (∀ (fn : String) (pt : PatternType),
      matchesPatterns compile rmatch fn [] SearchMode.OR pt = some false) ∧
    (∀ (input : String) (ps : List String) (m : SearchMode) (t : PatternType),
      parseSearchPatterns input = some (ps, m, t) → ps ≠ []) := by
  refine ⟨?_, ?_, ?_, ?_⟩
  · intro fn pt ps
    cases pt <;> cases ps <;> simp [matchesPatterns]
  · intro fn pt
    cases pt <;> simp [matchesPatterns, simpleAndLoop, regexAndLoop]
  · intro fn pt
    cases pt <;> simp [matchesPatterns, simpleOrLoop, regexOrLoop]
  · intro input ps m t h
    obtain ⟨raw, _, hps, hne⟩ := parse_success_struct input ps m t h
    rw [hps]
    simpa using hne

/-- Concrete instance of the C10 properties: the parse of `"a"` yields a
non-empty list, on which `SINGLE` mode is defined. -/
theorem claimC10_witness :
    parseSearchPatterns "a" = some (["a"], SearchMode.SINGLE, PatternType.SIMPLE) ∧
    (["a"] : List String) ≠ [] :=
  ⟨by decide, (claimC10_single_unguarded miniCompile rmatches).2.2.2 "a" ["a"]
      SearchMode.SINGLE PatternType.SIMPLE (by decide)⟩

/-- Counterexample to claim C2 as stated: with the sub-pattern list
`["(", "a"]` in OR mode — `"("` malformed (an unmatched parenthesis throws
`std::regex_error` in ECMAScript mode, and fails in the executable engine
instance), `"a"` well-formed and fully matching the filename `"a"` — the
claim demands `matchesPatterns` return true, but the code returns false:
the malformed sub-pattern aborts the match decision and the later matching
sub-pattern is never evaluated. -/
theorem claimC2_cex :
    (∃ re, miniCompile "a" = some re ∧ rmatches re "a" = true) ∧
    miniCompile "(" = none ∧
    matchesPatterns miniCompile rmatches "a" ["(", "a"] SearchMode.OR
        PatternType.REGEX ≠ some true :=
  ⟨⟨MiniRE.seq (MiniRE.chr 'a') MiniRE.eps, by decide, by decide⟩, by decide, by decide⟩

/-- Claim C2 amended: in Regex OR mode, once scanning reaches a malformed
sub-pattern (all earlier sub-patterns well-formed and non-matching),
`matchesPatterns` returns `some false` at once, whatever the remaining
sub-patterns are: the malformed sub-pattern aborts the match decision for
that filename (the traversal itself continues, the call returning normally
with false rather than propagating the error). -/
theorem claimC2_malformed_aborts {RE : Type} (compile : String → Option RE)
    (rmatch : RE → String → Bool) (fn bad : String) (pre post : List String)
    (hbad : compile bad = none)
    (hpre : ∀ p ∈ pre, ∃ re, compile p = some re ∧ rmatch re fn = false) :
    matchesPatterns compile rmatch fn (pre ++ bad :: post) SearchMode.OR
      PatternType.REGEX = some false := by
  have h := regexOrLoop_abort compile rmatch fn bad post hbad pre hpre
  simp [matchesPatterns, h]

/-- Concrete instance of the amended C2: with patterns `["b", "(", "a"]` and
filename `"a"`, the well-formed non-matching `"b"` is passed, then the
malformed `"("` forces `some false`, although `"a"` would match. -/
theorem claimC2_witness :
    miniCompile "(" = none ∧
    matchesPatterns miniCompile rmatches "a" (["b"] ++ "(" :: ["a"]) SearchMode.OR
      PatternType.REGEX = some false :=
  ⟨by decide,
    claimC2_malformed_aborts miniCompile rmatches "a" "(" ["b"] ["a"] (by decide)
      (by
        intro p hp
        have hpb : p = "b" := by simpa using hp
        subst hpb
        exact ⟨MiniRE.seq (MiniRE.chr 'b') MiniRE.eps, by decide, by decide⟩)⟩

/-- Counterexample to claim C4 as stated (over every pattern list): at the
pattern list `["(", "b"]` in Regex OR mode with filename `"b"`, the spec's
reference matcher is satisfied (the well-formed sub-pattern `"b"` fully
matches), but `matchesPatterns` returns `some false` because of the
malformed `"("`. -/
theorem claimC4_cex :
    matchesPatterns miniCompile rmatches "b" ["(", "b"] SearchMode.OR
        PatternType.REGEX = some false ∧
    specMatches miniCompile rmatches "b" ["(", "b"] SearchMode.OR
      PatternType.REGEX := by
  constructor
  · decide
  · exact ⟨"b", by decide,
      ⟨MiniRE.seq (MiniRE.chr 'b') MiniRE.eps, by decide, by decide⟩⟩

/-- Claim C4 amended: for every filename, mode and pattern type, and every
non-empty pattern list all of whose sub-patterns compile, `matchesPatterns`
is defined and agrees with the spec's reference matcher: Literal =
case-insensitive substring containment, Regex = case-insensitive full-string
match, composed by SINGLE (the first sub-pattern), AND (all) or OR (any). -/
theorem claimC4_matcher_equiv {RE : Type} (compile : String → Option RE)
    (rmatch : RE → String → Bool) (fn : String) (ps : List String)
    (mode : SearchMode) (ptype : PatternType)
    (hwf : ∀ p ∈ ps, (compile p).isSome = true) (hne : ps ≠ []) :
    (matchesPatterns compile rmatch fn ps mode ptype).isSome = true ∧
    (matchesPatterns compile rmatch fn ps mode ptype = some true ↔
      specMatches compile rmatch fn ps mode ptype) := by
  have hsub : ∀ p, simpleSub (toLowerStr fn) p = true ↔
      (toLowerStr p).data <:+: (toLowerStr fn).data :=
    fun p => containsSub_iff (toLowerStr p).data (toLowerStr fn).data
  obtain ⟨p0, tl, rfl⟩ := List.exists_cons_of_ne_nil hne
  cases ptype with
  | SIMPLE =>
    cases mode with
    | OR =>
      refine ⟨rfl, ?_⟩
      simp only [matchesPatterns, Option.some.injEq, specMatches, specSub]
      rw [simpleOrLoop_iff]
      simp [hsub]
    | AND =>
      refine ⟨rfl, ?_⟩
      simp only [matchesPatterns, Option.some.injEq, specMatches, specSub]
      rw [simpleAndLoop_iff]
      simp [hsub]
    | SINGLE =>
      refine ⟨rfl, ?_⟩
      simp only [matchesPatterns, specMatches, specSub, List.head?_cons]
      simp [hsub]
  | REGEX =>
    cases mode with
    | OR =>
      refine ⟨rfl, ?_⟩
      simp only [matchesPatterns, Option.some.injEq, specMatches, specSub]
      rw [regexOrLoop_iff compile rmatch fn (p0 :: tl) hwf]
    | AND =>
      refine ⟨rfl, ?_⟩
      simp only [matchesPatterns, Option.some.injEq, specMatches, specSub]
      rw [regexAndLoop_iff compile rmatch fn (p0 :: tl) hwf]
    | SINGLE =>
      obtain ⟨re0, hre0⟩ := Option.isSome_iff_exists.mp (hwf p0 (by simp))
      refine ⟨by simp [matchesPatterns], ?_⟩
      simp only [matchesPatterns, specMatches, specSub, List.head?_cons, hre0]
      simp [hre0]

/-- Concrete instance of the amended C4: well-formed patterns
`["rep", "txt"]` in Literal AND mode against `"REPORT.TXT"`: the code
matcher and the spec's reference matcher agree (both true). -/
theorem claimC4_witness :
    (matchesPatterns miniCompile rmatches "REPORT.TXT" ["rep", "txt"] SearchMode.AND
        PatternType.SIMPLE).isSome = true ∧
    (matchesPatterns miniCompile rmatches "REPORT.TXT" ["rep", "txt"] SearchMode.AND
        PatternType.SIMPLE = some true ↔
      specMatches miniCompile rmatches "REPORT.TXT" ["rep", "txt"] SearchMode.AND
        PatternType.SIMPLE) :=
  claimC4_matcher_equiv miniCompile rmatches "REPORT.TXT" ["rep", "txt"]
    SearchMode.AND PatternType.SIMPLE
    (by
      intro p hp
      rcases (by simpa using hp : p = "rep" ∨ p = "txt") with h | h <;>
        (subst h; decide))
    (by decide)

/-- Recording a match, incrementing, and decrementing leave the other state
components unchanged; basic trace facts. -/
theorem traceOK_recordMatch (p n : String) (s : SearchState) (h : traceOK s) :
    traceOK (recordMatch p n s) := h

/-- Incrementing preserves the non-negativity invariant. -/
theorem traceOK_incr (s : SearchState) (h : traceOK s) : traceOK (incr s) := by
  obtain ⟨ha, ht⟩ := h
  refine ⟨by simpa [incr] using by omega, ?_⟩
  intro v hv
  simp only [incr, List.mem_append, List.mem_singleton] at hv
  rcases hv with hv | hv
  · exact ht v hv
  · omega

/-- Decrementing from a strictly positive counter preserves the invariant. -/
theorem traceOK_decrNotify (s : SearchState) (h : traceOK s) (h1 : 1 ≤ s.active) :
    traceOK (decrNotify s) := by
  obtain ⟨_, ht⟩ := h
  refine ⟨by simp only [decrNotify]; omega, ?_⟩
  intro v hv
  simp only [decrNotify, List.mem_append, List.mem_singleton] at hv
  rcases hv with hv | hv
  · exact ht v hv
  · omega

/-- Core lemma about the traversal: the result vector grows exactly by the
matches of the subtree in traversal order, the active counter returns to its
entry value, and the non-negativity invariant is preserved. -/
theorem searchDirEntries_spec (mp : String → Bool) (maxT : Int) :
    ∀ (p : String) (es : List FSEntry) (s : SearchState),
      (searchDirEntries mp maxT p es s).results = s.results ++ collectMatches mp p es ∧
      (searchDirEntries mp maxT p es s).active = s.active ∧
      (traceOK s → traceOK (searchDirEntries mp maxT p es s)) := by
  intro p es s
  induction p, es, s using searchDirEntries.induct mp maxT with
  | case1 p s => simp [searchDirEntries, collectMatches]
  | case2 p n rest s ih =>
    by_cases hm : mp n = true
    · simp only [searchDirEntries, hm, dite_true, if_true] at ih ⊢
      refine ⟨?_, ih.2.1, fun h => ih.2.2 (traceOK_recordMatch p n s h)⟩
      rw [ih.1]
      simp [collectMatches, hm, recordMatch, List.append_assoc]
    · simp only [searchDirEntries, hm, Bool.false_eq_true, dite_false, if_false]
        at ih ⊢
      refine ⟨?_, ih.2.1, ih.2.2⟩
      rw [ih.1]
      simp [collectMatches, hm]
  | case3 p n sub rest s ih1 ih2 ih3 =>
    by_cases hc : maxT ≤ s.active
    · simp only [searchDirEntries, hc, dif_pos, if_pos] at ih3 ⊢
      refine ⟨?_, ?_, ?_⟩
      · rw [ih3.1, ih1.1]
        simp [collectMatches, List.append_assoc]
      · rw [ih3.2.1, ih1.2.1]
      · intro h
        exact ih3.2.2 (ih1.2.2 h)
    · simp only [searchDirEntries, hc, dif_neg, if_neg, not_false_iff] at ih3 ⊢
      refine ⟨?_, ?_, ?_⟩
      · rw [ih3.1]
        simp only [decrNotify]
        rw [ih2.1]
        simp [incr, collectMatches, List.append_assoc]
      · rw [ih3.2.1]
        simp only [decrNotify]
        rw [ih2.2.1]
        simp [incr]
      · intro h
        have h0 := h.1
        apply ih3.2.2
        apply traceOK_decrNotify
        · exact ih2.2.2 (traceOK_incr s h)
        · rw [ih2.2.1]
          simp only [incr]
          omega
  | case4 p n rest s ih =>
    simp only [searchDirEntries] at ih ⊢
    refine ⟨?_, ih.2.1, ih.2.2⟩
    rw [ih.1]
    simp [collectMatches]

/-- The list of collected matches has as many elements as there are matching
regular files in the reachable tree. -/
theorem length_collectMatches (mp : String → Bool) :
    ∀ (p : String) (es : List FSEntry),
      (collectMatches mp p es).length = countMatches mp es := by
  intro p es
  induction p, es using collectMatches.induct mp with
  | case1 p => simp [collectMatches, countMatches]
  | case2 p n rest ih =>
    by_cases hm : mp n = true
    · simp [collectMatches, countMatches, hm, ih]
      omega
    · simp [collectMatches, countMatches, hm, ih]
  | case3 p n sub rest ih1 ih2 =>
    simp [collectMatches, countMatches, ih1, ih2]
  | case4 p n rest ih =>
    simp [collectMatches, countMatches, ih]

/-- Traversal is blind to inaccessible entries: running on a tree equals
running on the tree with every denied entry removed (same results, same
counter values, same trace). -/
theorem searchDirEntries_prune (mp : String → Bool) (maxT : Int) :
    ∀ (p : String) (es : List FSEntry) (s : SearchState),
      searchDirEntries mp maxT p (pruneEntries es) s =
        searchDirEntries mp maxT p es s := by
  intro p es s
  induction p, es, s using searchDirEntries.induct mp maxT with
  | case1 p s => simp [pruneEntries]
  | case2 p n rest s ih =>
    by_cases hm : mp n = true <;>
      simp only [pruneEntries, searchDirEntries, hm, if_true, if_false] at ih ⊢ <;>
      exact ih
  | case3 p n sub rest s ih1 ih2 ih3 =>
    by_cases hc : maxT ≤ s.active
    · simp only [pruneEntries, searchDirEntries, hc, if_pos, dif_pos] at ih3 ⊢
      rw [ih1, ih3]
    · simp only [pruneEntries, searchDirEntries, hc, if_neg, dif_neg, not_false_iff]
        at ih3 ⊢
      rw [ih2, ih3]
  | case4 p n rest s ih =>
    simp only [pruneEntries, searchDirEntries] at ih ⊢
    exact ih

/-- The lexicographic order on character lists is total. -/
theorem listLE_total : ∀ a b : List Char, listLE a b = true ∨ listLE b a = true := by
  intro a
  induction a with
  | nil => intro b; left; simp [listLE]
  | cons x xs ih =>
    intro b
    cases b with
    | nil => right; simp [listLE]
    | cons y ys =>
      by_cases h1 : x.toNat < y.toNat
      · left; simp [listLE, h1]
      · by_cases h2 : y.toNat < x.toNat
        · right; simp [listLE, h2]
        · rcases ih ys with h | h
          · left; simp [listLE, h1, h2, h]
          · right; simp [listLE, h1, h2, h]

/-- The lexicographic order on character lists is transitive. -/
theorem listLE_trans : ∀ a b c : List Char,
    listLE a b = true → listLE b c = true → listLE a c = true := by
  intro a
  induction a with
  | nil => intro b c _ _; simp [listLE]
  | cons x xs ih =>
    intro b c hab hbc
    cases b with
    | nil => simp [listLE] at hab
    | cons y ys =>
      cases c with
      | nil => simp [listLE] at hbc
      | cons z zs =>
        simp only [listLE] at hab hbc ⊢
        split_ifs at hab hbc ⊢ <;>
          first
            | rfl
            | (exact ih ys zs hab hbc)
            | (exact Bool.noConfusion hab)
            | (exact Bool.noConfusion hbc)
            | (exfalso; omega)

/-- Totality of the sort relation used by the final sort. -/
instance : IsTotal SearchResult
    (fun a b => strLE (formatResult a) (formatResult b) = true) :=
  ⟨fun a b => listLE_total (formatResult a).data (formatResult b).data⟩

/-- Transitivity of the sort relation used by the final sort. -/
instance : IsTrans SearchResult
    (fun a b => strLE (formatResult a) (formatResult b) = true) :=
  ⟨fun a b c => listLE_trans (formatResult a).data (formatResult b).data
    (formatResult c).data⟩

/-- The final sort produces a sequence ordered by the formatted result line. -/
theorem sortResults_sorted (rs : List SearchResult) :
    List.Sorted (fun a b => strLE (formatResult a) (formatResult b) = true)
      (sortResults rs) :=
  List.sorted_insertionSort _ rs

/-- Counterexample to claim C1 as stated: on a tree where the
alphabetically-smaller filename sits in the alphabetically-larger directory,
the returned sequence — sorted by the stored formatted line, which begins
with the filename — is not ordered by absolute path: it yields the paths
`"/r/y/a.txt"` then `"/r/x/b.txt"`. -/
theorem claimC1_cex :
    qfsSearch miniCompile rmatches ["txt"] SearchMode.OR PatternType.SIMPLE 8 "/r"
        cexTree = [⟨"a.txt", "/r/y/a.txt"⟩, ⟨"b.txt", "/r/x/b.txt"⟩] ∧
    ¬ List.Pairwise (fun a b => strLE a.absolutePath b.absolutePath = true)
      (qfsSearch miniCompile rmatches ["txt"] SearchMode.OR PatternType.SIMPLE 8 "/r"
        cexTree) := by
  constructor
  · simp only [qfsSearch, runQFS, sortResults, searchDirEntries, initState, recordMatch,
      incr, decrNotify, childPath, cexTree]
    decide
  · simp only [qfsSearch, runQFS, sortResults, searchDirEntries, initState, recordMatch,
      incr, decrNotify, childPath, cexTree]
    decide

/-- Claim C1 amended: after traversal completes, the returned sequence is
sorted by the stored formatted line `"Found <name> at: <path>"` in the
lexicographic string order (so primarily by filename), not by absolute
path. -/
theorem claimC1_sorted_by_line {RE : Type} (compile : String → Option RE)
    (rmatch : RE → String → Bool) (patterns : List String) (mode : SearchMode)
    (ptype : PatternType) (maxT : Int) (rootPath : String) (root : List FSEntry) :
    List.Pairwise (fun a b => strLE (formatResult a) (formatResult b) = true)
      (qfsSearch compile rmatch patterns mode ptype maxT rootPath root) :=
  sortResults_sorted _

/-- Claim C3: for every finite tree and `maxConcurrency ≥ 1`, the returned
sequence has exactly one element per matching regular file of the reachable
tree, and a tree without matches yields the empty sequence (the pipeline is
a total function, so never an error). -/
theorem claimC3_result_cardinality {RE : Type} (compile : String → Option RE)
    (rmatch : RE → String → Bool) (patterns : List String) (mode : SearchMode)
    (ptype : PatternType) (maxT : Int) (rootPath : String) (root : List FSEntry)
    (_hmax : 1 ≤ maxT) :
    (qfsSearch compile rmatch patterns mode ptype maxT rootPath root).length =
      countMatches
        (fun n => matchesPatterns compile rmatch n patterns mode ptype == some true)
        root ∧
    (countMatches
        (fun n => matchesPatterns compile rmatch n patterns mode ptype == some true)
        root = 0 →
      qfsSearch compile rmatch patterns mode ptype maxT rootPath root = []) := by
  have hlen : (qfsSearch compile rmatch patterns mode ptype maxT rootPath root).length =
      countMatches
        (fun n => matchesPatterns compile rmatch n patterns mode ptype == some true)
        root := by
    unfold qfsSearch runQFS sortResults
    rw [List.Perm.length_eq (List.perm_insertionSort _ _)]
    rw [(searchDirEntries_spec _ maxT rootPath root initState).1]
    simp [initState, length_collectMatches]
  refine ⟨hlen, ?_⟩
  intro h0
  have : (qfsSearch compile rmatch patterns mode ptype maxT rootPath root).length = 0 := by
    rw [hlen, h0]
  exact List.length_eq_zero.mp this

/-- Concrete instance of C3 with `maxConcurrency = 1` on the two-directory
tree: two matching files, two results. -/
theorem claimC3_witness :
    (qfsSearch miniCompile rmatches ["txt"] SearchMode.OR PatternType.SIMPLE 1 "/r"
        cexTree).length =
      countMatches
        (fun n => matchesPatterns miniCompile rmatches n ["txt"] SearchMode.OR
          PatternType.SIMPLE == some true) cexTree ∧
    (countMatches
        (fun n => matchesPatterns miniCompile rmatches n ["txt"] SearchMode.OR
          PatternType.SIMPLE == some true) cexTree = 0 →
      qfsSearch miniCompile rmatches ["txt"] SearchMode.OR PatternType.SIMPLE 1 "/r"
        cexTree = []) :=
  claimC3_result_cardinality miniCompile rmatches ["txt"] SearchMode.OR
    PatternType.SIMPLE 1 "/r" cexTree (by decide)

/-- Claim C7: the spawn decision obeys the budget policy: observing
`active ≥ maxConcurrent` leads to the inline recursive call with the counter
untouched; otherwise the counter is incremented before the unit and
decremented exactly once (with the barrier notification) after it; the net
effect on the counter is zero; and from a valid state the counter stays
non-negative at all times (every recorded intermediate value included). -/
theorem claimC7_spawn_policy (mp : String → Bool) (maxT : Int) (p : String)
    (entries : List FSEntry) (s : SearchState) :
    (maxT ≤ s.active →
      launchSearch mp maxT p entries s = searchDirEntries mp maxT p entries s) ∧
    (s.active < maxT →
      launchSearch mp maxT p entries s =
        decrNotify (searchDirEntries mp maxT p entries (incr s))) ∧
    (launchSearch mp maxT p entries s).active = s.active ∧
    (traceOK s → traceOK (launchSearch mp maxT p entries s)) := by
  refine ⟨?_, ?_, ?_, ?_⟩
  · intro h
    simp [launchSearch, h]
  · intro h
    simp [launchSearch, not_le.mpr h]
  · by_cases h : maxT ≤ s.active
    · simp only [launchSearch, if_pos h]
      exact (searchDirEntries_spec mp maxT p entries s).2.1
    · simp only [launchSearch, if_neg h, decrNotify]
      rw [(searchDirEntries_spec mp maxT p entries (incr s)).2.1]
      simp only [incr]
      omega
  · intro htr
    have h0 := htr.1
    by_cases h : maxT ≤ s.active
    · simp only [launchSearch, if_pos h]
      exact (searchDirEntries_spec mp maxT p entries s).2.2 htr
    · simp only [launchSearch, if_neg h]
      apply traceOK_decrNotify
      · exact (searchDirEntries_spec mp maxT p entries (incr s)).2.2 (traceOK_incr s htr)
      · rw [(searchDirEntries_spec mp maxT p entries (incr s)).2.1]
        simp only [incr]
        omega

/-- Concrete instance of C7 at the initial state with budget 1: the spawn
branch is taken and the invariant holds afterwards. -/
theorem claimC7_witness :
    launchSearch (fun _ => true) 1 "/r" [FSEntry.file "a.txt"] initState =
      decrNotify (searchDirEntries (fun _ => true) 1 "/r" [FSEntry.file "a.txt"]
        (incr initState)) ∧
    traceOK (launchSearch (fun _ => true) 1 "/r" [FSEntry.file "a.txt"] initState) :=
  ⟨(claimC7_spawn_policy (fun _ => true) 1 "/r" [FSEntry.file "a.txt"] initState).2.1
      (by decide),
    (claimC7_spawn_policy (fun _ => true) 1 "/r" [FSEntry.file "a.txt"] initState).2.2.2
      ⟨by decide, by simp [initState]⟩⟩

/-- Claim C8: a nonexistent path, a non-directory path, or a path whose
status query throws returns at once with the shared state (in particular the
result set) unchanged, and inaccessible entries anywhere in the tree are
skipped exactly: traversal of a tree equals traversal of the tree with every
denied entry removed, so sibling and descendant traversal completes and no
filesystem error escapes (the embedded traversal is a total function). -/
theorem claimC8_skip_policy (mp : String → Bool) (maxT : Int) :
    (∀ p s, searchInDirectory mp maxT p none s = s) ∧
    (∀ p n s, searchInDirectory mp maxT p (some (FSEntry.file n)) s = s) ∧
    (∀ p n s, searchInDirectory mp maxT p (some (FSEntry.denied n)) s = s) ∧
    (∀ p es s, searchDirEntries mp maxT p (pruneEntries es) s =
      searchDirEntries mp maxT p es s) :=
  ⟨fun _ _ => rfl, fun _ _ _ => rfl, fun _ _ _ => rfl,
    fun p es s => searchDirEntries_prune mp maxT p es s⟩

/-- Claim C9 (code bug): the barrier is not race-free.  The worker's final
`activeThreads--` and `notify_one` (src/QFS.cpp lines 460-461) are not
performed under `threadsMutex`, so they can run between `main`'s predicate
check under the mutex and its blocking inside `wait` (lines 674-675); the
notification then finds no blocked waiter and is lost, and `main` blocks
forever although `activeThreads = 0`.  The first conjunct runs that
interleaving to its final state; the second shows the final state has no
enabled step (deadlock, root never returns); the third shows the model does
terminate under the benign interleaving, so the deadlock is a genuine lost
wakeup and not a model artifact. -/
theorem claimC9_lost_wakeup :
    brun bInit lostWakeupSched =
      some ⟨0, false, MainPC.blocked, WorkerPC.fin⟩ ∧
    (∀ a, bstep ⟨0, false, MainPC.blocked, WorkerPC.fin⟩ a = none) ∧
    brun bInit [BAct.mAcq, BAct.mCheck, BAct.mBlock, BAct.wDec, BAct.wNotify,
        BAct.mAcq, BAct.mCheck] =
      some ⟨0, false, MainPC.done, WorkerPC.fin⟩ := by
  refine ⟨by decide, ?_, by decide⟩
  intro a
  cases a <;> decide

end QFS
